import Mathlib

/-
  Verification development for the Battle Chess orchestration core.

  Shallow embedding of:
  - src/core/types.ts           (basic data types)
  - src/graphics/PieceRenderer.ts (the visual piece registry: addPiece,
    removePiece, movePiece, setupInitialPosition, getPieceAt)
  - src/graphics/CameraController.ts (camera transitions, easing)
  - src/battle/BattleManager.ts (the five-stage battle sequence and its
    re-entrancy guard)
  - src/battle/particles/ParticlePool.ts (fixed-capacity particle pool)
  - src/core/GameState.ts       (the turn orchestrator: handleSquareClick,
    selectPiece, clearSelection, executeMove, handleCastling,
    handleEnPassant)

  State-mutating TypeScript methods are embedded as pure functions from
  state to (state, trace); the trace records the externally observable
  actions (battle cutscenes, registry mutations driven by animation,
  emitted game events) in the order the code performs them.  Machine
  numbers appearing in board coordinates are embedded as Int; the exact
  real arithmetic of the camera interpolation is embedded over Rat.
-/

namespace BattleChess

/-- Piece color from src/core/types.ts: `PieceColor = w | b`. -/
inductive PieceColor where
  | w
  | b
deriving DecidableEq, Repr

/-- Flip to the opposing color (used for the side to move after an accepted
move; chess.js alternates the turn on every accepted move). -/
def PieceColor.flip : PieceColor → PieceColor
  | .w => .b
  | .b => .w

/-- Piece type from src/core/types.ts: `PieceType = k | q | r | b | n | p`. -/
inductive PieceType where
  | k
  | q
  | r
  | b
  | n
  | p
deriving DecidableEq, Repr

/-- Board position from src/core/types.ts: `{ file, rank }`, each 0..7 in
play; embedded as integers because the code subtracts them
(`Math.abs(to.file - from.file)`). -/
structure Position where
  file : Int
  rank : Int
deriving DecidableEq, Repr

/-- Stored piece data from src/graphics/PieceRenderer.ts `PieceMeshData`
(the mesh handle itself carries no game-relevant state beyond these). -/
structure PieceData where
  type : PieceType
  color : PieceColor
  position : Position
deriving DecidableEq, Repr

/-! ## Piece registry (src/graphics/PieceRenderer.ts)

The renderer stores pieces in a `Map` keyed by the string `file-rank`;
that key is in bijection with the position pair, so the registry is
embedded as a function from `Position` to an optional `PieceData`. -/

/-- The registry: at most one stored entry per position key, as a `Map`. -/
def Registry : Type := Position → Option PieceData

/-- PieceRenderer.getPieceAt: `this.pieces.get(key) || null`. -/
def getPieceAt (r : Registry) (p : Position) : Option PieceData := r p

/-- Registry effect of PieceRenderer.addPiece: `this.pieces.set(key, {...})`
storing the fresh piece with `position = { ...position }`. -/
def addPieceReg (r : Registry) (t : PieceType) (c : PieceColor) (p : Position) : Registry :=
  fun q => if q = p then some ⟨t, c, p⟩ else r q

/-- Registry effect of PieceRenderer.removePiece: looks the key up and
deletes it; absent keys leave the map unchanged. -/
def removePieceReg (r : Registry) (p : Position) : Registry :=
  fun q => if q = p then none else r q

/-- Registry effect of PieceRenderer.movePiece: returns the map unchanged
when the source is empty; otherwise removes any piece at the destination,
updates the stored data position, deletes the source key and re-inserts
the data at the destination key (the destination write happens last, so a
move with equal source and destination keeps the piece). -/
def movePieceReg (r : Registry) (src dst : Position) : Registry :=
  match r src with
  | none => r
  | some d => fun q =>
      if q = dst then some { d with position := dst }
      else if q = src then none
      else r q

/-- The empty registry, the state of `this.pieces = new Map()` at
construction. -/
def emptyReg : Registry := fun _ => none

/-- Registry effect of PieceRenderer.setupInitialPosition: clearPieces
followed by one addPiece per occupied board square, ranks and files
0 through 7. -/
def setupReg (board : Position → Option (PieceType × PieceColor)) : Registry :=
  fun q =>
    if 0 ≤ q.file ∧ q.file < 8 ∧ 0 ≤ q.rank ∧ q.rank < 8 then
      (board q).map (fun sq => ⟨sq.1, sq.2, q⟩)
    else none

/-- Well-formedness of the registry: every stored entry records the
position it is keyed under.  This is what makes `occupies` well defined:
a piece occupies the square its data says, and the map key agrees. -/
def RegWF (r : Registry) : Prop := ∀ p d, r p = some d → d.position = p

/-- Registry states reachable through the public PieceRenderer interface,
starting from the empty map of the constructor. -/
inductive RegReach : Registry → Prop where
  | empty : RegReach emptyReg
  | setup (r : Registry) (board : Position → Option (PieceType × PieceColor)) :
      RegReach r → RegReach (setupReg board)
  | add (r : Registry) (t : PieceType) (c : PieceColor) (p : Position) :
      RegReach r → RegReach (addPieceReg r t c p)
  | remove (r : Registry) (p : Position) :
      RegReach r → RegReach (removePieceReg r p)
  | move (r : Registry) (src dst : Position) :
      RegReach r → RegReach (movePieceReg r src dst)

theorem regWF_empty : RegWF emptyReg := by
  intro p d h
  simp [emptyReg] at h

theorem regWF_setup (board : Position → Option (PieceType × PieceColor)) :
    RegWF (setupReg board) := by
  intro p d h
  simp only [setupReg] at h
  split at h
  · cases hb : board p with
    | none => simp [hb] at h
    | some sq => simp [hb] at h; simp [← h]
  · simp at h

theorem regWF_add (r : Registry) (t : PieceType) (c : PieceColor) (p : Position)
    (hr : RegWF r) : RegWF (addPieceReg r t c p) := by
  intro q d h
  simp only [addPieceReg] at h
  split at h
  next heq => cases h; exact heq.symm
  next => exact hr q d h

theorem regWF_remove (r : Registry) (p : Position) (hr : RegWF r) :
    RegWF (removePieceReg r p) := by
  intro q d h
  simp only [removePieceReg] at h
  split at h
  · cases h
  · exact hr q d h

theorem regWF_move (r : Registry) (src dst : Position) (hr : RegWF r) :
    RegWF (movePieceReg r src dst) := by
  intro q d h
  unfold movePieceReg at h
  cases hs : r src with
  | none => rw [hs] at h; exact hr q d h
  | some m =>
      rw [hs] at h
      simp only at h
      split at h
      next heq => cases h; exact heq.symm
      next =>
        split at h
        · cases h
        · exact hr q d h

/-- Every reachable registry state is well formed. -/
theorem regReach_wf (r : Registry) (hr : RegReach r) : RegWF r := by
  induction hr with
  | empty => exact regWF_empty
  | setup r board _ _ => exact regWF_setup board
  | add r t c p _ ih => exact regWF_add r t c p ih
  | remove r p _ ih => exact regWF_remove r p ih
  | move r src dst _ ih => exact regWF_move r src dst ih

/-- Claim C2: for all reachable states of the piece registry, at most one
visual piece occupies any board position — two stored entries recording
the same occupied position are the same entry under the same key — and
every sequence of addPiece, movePiece, removePiece and
setupInitialPosition operations preserves this; moving a piece onto an
occupied destination leaves exactly one piece, the moved one, at that
destination (and clears the source). -/
theorem registry_at_most_one_piece_per_position :
    (∀ (r : Registry), RegReach r → ∀ (p k₁ k₂ : Position) (d₁ d₂ : PieceData),
        r k₁ = some d₁ → r k₂ = some d₂ → d₁.position = p → d₂.position = p →
        k₁ = k₂ ∧ d₁ = d₂) ∧
    (∀ (r : Registry) (src dst : Position) (d e : PieceData),
        r src = some d → r dst = some e → src ≠ dst →
        movePieceReg r src dst dst = some ⟨d.type, d.color, dst⟩ ∧
        movePieceReg r src dst src = none) := by
  constructor
  · intro r hr p k₁ k₂ d₁ d₂ h1 h2 hp1 hp2
    have wf := regReach_wf r hr
    have e1 := wf k₁ d₁ h1
    have e2 := wf k₂ d₂ h2
    have hk : k₁ = k₂ := by rw [← e1, ← e2, hp1, hp2]
    subst hk
    rw [h1] at h2
    exact ⟨rfl, Option.some.inj h2⟩
  · intro r src dst d e h1 h2 hne
    unfold movePieceReg
    rw [h1]
    refine ⟨by simp, ?_⟩
    simp [hne]

/-- Concrete registry used by the C2 witness: a white pawn on e4 and a
black knight on d5, built through the public operations. -/
def regC2 : Registry :=
  addPieceReg (addPieceReg emptyReg .p .w ⟨4, 3⟩) .n .b ⟨3, 4⟩

theorem registry_at_most_one_witness :
    (RegReach regC2 ∧
      ((⟨4, 3⟩ : Position) = ⟨4, 3⟩ ∧
        (⟨.p, .w, ⟨4, 3⟩⟩ : PieceData) = ⟨.p, .w, ⟨4, 3⟩⟩)) ∧
    (movePieceReg regC2 ⟨4, 3⟩ ⟨3, 4⟩ ⟨3, 4⟩ = some ⟨.p, .w, ⟨3, 4⟩⟩ ∧
      movePieceReg regC2 ⟨4, 3⟩ ⟨3, 4⟩ ⟨4, 3⟩ = none) := by
  have hreach : RegReach regC2 :=
    RegReach.add _ _ _ _ (RegReach.add _ _ _ _ RegReach.empty)
  refine ⟨⟨hreach, ?_⟩, ?_⟩
  · exact registry_at_most_one_piece_per_position.1 regC2 hreach ⟨4, 3⟩ ⟨4, 3⟩ ⟨4, 3⟩
      ⟨.p, .w, ⟨4, 3⟩⟩ ⟨.p, .w, ⟨4, 3⟩⟩ (by decide) (by decide) rfl rfl
  · exact registry_at_most_one_piece_per_position.2 regC2 ⟨4, 3⟩ ⟨3, 4⟩
      ⟨.p, .w, ⟨4, 3⟩⟩ ⟨.n, .b, ⟨3, 4⟩⟩ (by decide) (by decide) (by decide)

/-! ## Camera controller (src/graphics/CameraController.ts)

Vector arithmetic is embedded over the rationals: the code performs exact
affine combinations (`lerpVectors`) whose float rounding is idealized
away, which is the standard reading of the spec phrase about the camera
returning exactly to the default viewpoint. -/

/-- A 3-component vector, THREE.Vector3 over exact rationals. -/
structure Vec3 where
  x : Rat
  y : Rat
  z : Rat
deriving DecidableEq, Repr

/-- THREE.Vector3.lerpVectors: componentwise `v1 + (v2 - v1) * alpha`. -/
def lerpVec (a b : Vec3) (t : Rat) : Vec3 :=
  ⟨a.x + (b.x - a.x) * t, a.y + (b.y - a.y) * t, a.z + (b.z - a.z) * t⟩

/-- CameraController.easeInOutCubic:
`t < 0.5 ? 4 t^3 : 1 - (-2t + 2)^3 / 2`. -/
def easeInOutCubic (t : Rat) : Rat :=
  if t < 1 / 2 then 4 * t * t * t else 1 - (-2 * t + 2) ^ 3 / 2

/-- Camera controller state: camera position, orbit-controls target, the
default viewpoint captured at construction, the animation flag and the
saved orbit-controls enablement. -/
structure CameraState where
  pos : Vec3
  target : Vec3
  defaultPos : Vec3
  defaultTarget : Vec3
  isAnimating : Bool
  controlsEnabled : Bool
  wasControlsEnabled : Bool
deriving DecidableEq, Repr

/-- CameraController.animateCamera, embedded as the state at resolution:
the frame loop sets `isAnimating = true`, iterates with progress clamped
to 1, and on the final frame applies `lerpVectors` at the eased clamped
progress and clears `isAnimating`.  Intermediate frames do not affect the
resolved state, and neither does the duration. -/
def animateCamera (c : CameraState) (targetPos targetLookAt : Vec3)
    (_duration : Rat) : CameraState :=
  { c with
      pos := lerpVec c.pos targetPos (easeInOutCubic 1)
      target := lerpVec c.target targetLookAt (easeInOutCubic 1)
      isAnimating := false }

/-- CameraController.returnToDefault: rejected as a no-op while animating;
otherwise animates to the captured default viewpoint over 500 ms and then
restores the saved orbit-controls enablement. -/
def returnToDefault (c : CameraState) : CameraState :=
  if c.isAnimating then c
  else
    let c1 := animateCamera c c.defaultPos c.defaultTarget 500
    { c1 with controlsEnabled := c1.wasControlsEnabled }

/-- CameraController.transitionToBattle: rejected as a no-op while
animating; otherwise saves and disables the orbit controls and animates
to the battle framing over 600 ms.  The battle framing itself (midpoint,
normalized perpendicular offset, distance floor) involves a square root,
so it is supplied as a parameter `battlePose`; no claim depends on its
value. -/
def transitionToBattle (battlePose : Position → Position → Vec3 × Vec3)
    (c : CameraState) (attackerPos defenderPos : Position) : CameraState :=
  if c.isAnimating then c
  else
    let c0 := { c with wasControlsEnabled := c.controlsEnabled, controlsEnabled := false }
    animateCamera c0 (battlePose attackerPos defenderPos).1
      (battlePose attackerPos defenderPos).2 600

theorem easeInOutCubic_one : easeInOutCubic 1 = 1 := by
  norm_num [easeInOutCubic]

theorem lerpVec_one (a b : Vec3) : lerpVec a b 1 = b := by
  simp [lerpVec]

/-- Claim C10: returnToDefault is idempotent on the camera pose — after a
completed first call (the rig no longer animating), a second call resolves
with the camera position and look-at target exactly equal to the captured
default viewpoint. -/
theorem returnToDefault_idempotent (c : CameraState) (h : c.isAnimating = false) :
    (returnToDefault c).isAnimating = false ∧
    (returnToDefault (returnToDefault c)).pos = c.defaultPos ∧
    (returnToDefault (returnToDefault c)).target = c.defaultTarget := by
  simp [returnToDefault, animateCamera, h, easeInOutCubic_one, lerpVec_one]

/-- Concrete camera state for the C10 witness. -/
def camC10 : CameraState :=
  { pos := ⟨3, 5, 7⟩, target := ⟨1, 0, 1⟩, defaultPos := ⟨0, 12, 12⟩,
    defaultTarget := ⟨0, 0, 0⟩, isAnimating := false,
    controlsEnabled := true, wasControlsEnabled := true }

theorem returnToDefault_idempotent_witness :
    (returnToDefault camC10).isAnimating = false ∧
    (returnToDefault (returnToDefault camC10)).pos = camC10.defaultPos ∧
    (returnToDefault (returnToDefault camC10)).target = camC10.defaultTarget :=
  returnToDefault_idempotent camC10 rfl

/-! ## Battle manager (src/battle/BattleManager.ts)

playBattle is embedded as a function from battle-manager state to the
resolved state together with the list of stages it actually ran, in
order.  Particle and piece-mesh effects inside the stages are observable
only through the stage trace; the camera is threaded through the camera
model above. -/

/-- The two-way attack split: BattleManager.playAttackAnimation chooses a
magic projectile for `k`, `q`, `b` and a melee lunge otherwise. -/
inductive AttackKind where
  | magic
  | melee
deriving DecidableEq, Repr

/-- The stages of the fixed battle protocol, in the order playBattle
awaits them. -/
inductive BattleStage where
  | cameraApproach
  | attack (kind : AttackKind)
  | death
  | pause
  | cameraReturn
  | cleanup
deriving DecidableEq, Repr

/-- BattleManager state: the single-flight flag and the shared camera. -/
structure BattleState where
  isPlaying : Bool
  camera : CameraState
deriving DecidableEq, Repr

/-- `['k', 'q', 'b'].includes(attackerType)`. -/
def isMagicUser : PieceType → Bool
  | .k => true
  | .q => true
  | .b => true
  | _ => false

/-- BattleManager.playBattle: returns immediately while `isPlaying`;
otherwise sets the flag and awaits, in order, the camera approach, the
attack animation chosen by the archetype split, the defender death
animation, a 300 ms pause, the camera return and particle cleanup, and
finally clears the flag. -/
def playBattle (battlePose : Position → Position → Vec3 × Vec3)
    (s : BattleState) (attackerPos defenderPos : Position)
    (attackerType : PieceType) (_attackerColor : PieceColor) :
    BattleState × List BattleStage :=
  if s.isPlaying then (s, [])
  else
    let c1 := transitionToBattle battlePose s.camera attackerPos defenderPos
    let kind := if isMagicUser attackerType then AttackKind.magic else AttackKind.melee
    let c2 := returnToDefault c1
    ({ isPlaying := false, camera := c2 },
     [.cameraApproach, .attack kind, .death, .pause, .cameraReturn, .cleanup])

/-- Claim C3: at most one battle sequence runs at a time — while a battle
is already playing, any call to playBattle resolves immediately as a
no-op: no stage runs, the camera and the rest of the battle state are
unchanged, and nothing is queued for later (the resolved state carries no
record of the rejected call). -/
theorem playBattle_reentrant_noop
    (battlePose : Position → Position → Vec3 × Vec3) (s : BattleState)
    (attackerPos defenderPos : Position) (attackerType : PieceType)
    (attackerColor : PieceColor) (h : s.isPlaying = true) :
    playBattle battlePose s attackerPos defenderPos attackerType attackerColor
      = (s, []) := by
  simp [playBattle, h]

/-- Concrete busy battle state for the C3 witness. -/
def battleC3 : BattleState := { isPlaying := true, camera := camC10 }

theorem playBattle_reentrant_noop_witness :
    playBattle (fun _ _ => (⟨0, 0, 0⟩, ⟨0, 0, 0⟩)) battleC3
      ⟨4, 3⟩ ⟨3, 4⟩ .q .w = (battleC3, []) :=
  playBattle_reentrant_noop _ battleC3 ⟨4, 3⟩ ⟨3, 4⟩ .q .w rfl

/-! ## Particle pool (src/battle/particles/ParticlePool.ts)

The pool is the pre-allocated particle array; `spawn` claims the first
inactive slot in pool order (`particles.find(p => !p.active)`) and
initializes it, or returns doing nothing when every slot is active. -/

/-- A pooled particle: mesh position, velocity, material color, material
opacity, mesh scale, mesh visibility, remaining life, total life and the
active flag. -/
structure Particle where
  pos : Vec3
  vel : Vec3
  color : Nat
  opacity : Rat
  scale : Rat
  visible : Bool
  life : Rat
  maxLife : Rat
  active : Bool
deriving DecidableEq, Repr

/-- A particle slot as pre-allocated by the ParticlePool constructor:
invisible, inactive, `life = 0`, `maxLife = 1`, white material. -/
def initParticle : Particle :=
  { pos := ⟨0, 0, 0⟩, vel := ⟨0, 0, 0⟩, color := 0xffffff, opacity := 1,
    scale := 1, visible := false, life := 0, maxLife := 1, active := false }

/-- The slot initialization performed by ParticlePool.spawn on the claimed
slot: copy position and velocity, set life and maxLife, activate, show the
mesh, set the material color, reset opacity and scale. -/
def spawnedParticle (position velocity : Vec3) (color : Nat) (life : Rat) : Particle :=
  { pos := position, vel := velocity, color := color, opacity := 1,
    scale := 1, visible := true, life := life, maxLife := life, active := true }

/-- ParticlePool.spawn: first-fit over the slot array; a full pool drops
the request silently. -/
def spawn (pool : List Particle) (position velocity : Vec3) (color : Nat)
    (life : Rat) : List Particle :=
  match pool with
  | [] => []
  | q :: qs =>
      if q.active then q :: spawn qs position velocity color life
      else spawnedParticle position velocity color life :: qs

/-- One spawn request: position, velocity, color, lifetime. -/
def SpawnReq : Type := Vec3 × Vec3 × Nat × Rat

/-- A burst of spawn requests issued one after another against the pool. -/
def spawnMany (pool : List Particle) (reqs : List SpawnReq) : List Particle :=
  reqs.foldl (fun acc rq => spawn acc rq.1 rq.2.1 rq.2.2.1 rq.2.2.2) pool

/-- The number of active particles in a pool state. -/
def activeCount (pool : List Particle) : Nat := pool.countP (·.active)

theorem spawn_length (pool : List Particle) (a b : Vec3) (c : Nat) (l : Rat) :
    (spawn pool a b c l).length = pool.length := by
  induction pool with
  | nil => rfl
  | cons q qs ih =>
      unfold spawn
      split
      · simpa using ih
      · simp

theorem spawn_all_active (pool : List Particle) (a b : Vec3) (c : Nat) (l : Rat)
    (h : ∀ q ∈ pool, q.active = true) : spawn pool a b c l = pool := by
  induction pool with
  | nil => rfl
  | cons q qs ih =>
      unfold spawn
      rw [if_pos (h q (by simp))]
      rw [ih (fun x hx => h x (by simp [hx]))]

theorem activeCount_le_length (pool : List Particle) :
    activeCount pool ≤ pool.length :=
  List.countP_le_length _

theorem activeCount_spawn (pool : List Particle) (a b : Vec3) (c : Nat) (l : Rat) :
    activeCount (spawn pool a b c l) = min (activeCount pool + 1) pool.length := by
  induction pool with
  | nil => simp [spawn, activeCount]
  | cons q qs ih =>
      unfold spawn
      by_cases hq : q.active = true
      · rw [if_pos hq]
        have h1 : activeCount (q :: spawn qs a b c l)
            = activeCount (spawn qs a b c l) + 1 := by
          simp [activeCount, List.countP_cons, hq]
        have h2 : activeCount (q :: qs) = activeCount qs + 1 := by
          simp [activeCount, List.countP_cons, hq]
        rw [h1, ih, h2, List.length_cons]
        have := activeCount_le_length qs
        omega
      · rw [if_neg hq]
        have h1 : activeCount (spawnedParticle a b c l :: qs)
            = activeCount qs + 1 := by
          simp [activeCount, List.countP_cons, spawnedParticle]
        have h2 : activeCount (q :: qs) = activeCount qs := by
          simp [activeCount, List.countP_cons, hq]
        rw [h1, h2, List.length_cons]
        have := activeCount_le_length qs
        omega

theorem spawnMany_length (pool : List Particle) (reqs : List SpawnReq) :
    (spawnMany pool reqs).length = pool.length := by
  induction reqs generalizing pool with
  | nil => rfl
  | cons rq rqs ih =>
      unfold spawnMany
      simp only [List.foldl_cons]
      rw [show List.foldl _ _ rqs = spawnMany (spawn pool rq.1 rq.2.1 rq.2.2.1 rq.2.2.2) rqs from rfl,
        ih, spawn_length]

theorem activeCount_spawnMany (pool : List Particle) (reqs : List SpawnReq) :
    activeCount (spawnMany pool reqs)
      = min (activeCount pool + reqs.length) pool.length := by
  induction reqs generalizing pool with
  | nil =>
      have := activeCount_le_length pool
      simp only [spawnMany, List.foldl_nil, List.length_nil]
      omega
  | cons rq rqs ih =>
      unfold spawnMany
      simp only [List.foldl_cons]
      rw [show List.foldl _ _ rqs = spawnMany (spawn pool rq.1 rq.2.1 rq.2.2.1 rq.2.2.2) rqs from rfl,
        ih, activeCount_spawn, spawn_length]
      have := activeCount_le_length pool
      simp only [List.length_cons]
      omega

/-- Claim C8: ParticlePool.spawn activates the first inactive slot in pool
order; against a fully active pool it returns without error, without
reallocating (pool length unchanged) and without modifying any existing
active particle; and any 250 spawn requests against a fresh pool of
capacity 200 leave exactly 200 active particles, the remaining 50 dropped
silently. -/
theorem particle_pool_spawn_contract :
    (∀ (l1 : List Particle) (q : Particle) (l2 : List Particle)
        (a b : Vec3) (c : Nat) (l : Rat),
        (∀ x ∈ l1, x.active = true) → q.active = false →
        spawn (l1 ++ q :: l2) a b c l = l1 ++ spawnedParticle a b c l :: l2) ∧
    (∀ (pool : List Particle) (a b : Vec3) (c : Nat) (l : Rat),
        (∀ q ∈ pool, q.active = true) →
        spawn pool a b c l = pool ∧ (spawn pool a b c l).length = pool.length) ∧
    (∀ (reqs : List SpawnReq), reqs.length = 250 →
        activeCount (spawnMany (List.replicate 200 initParticle) reqs) = 200) := by
  refine ⟨?_, ?_, ?_⟩
  · intro l1 q l2 a b c l h1 hq
    induction l1 with
    | nil => simp [spawn, hq]
    | cons x xs ih =>
        simp only [List.cons_append]
        unfold spawn
        rw [if_pos (h1 x (by simp))]
        rw [ih (fun y hy => h1 y (by simp [hy]))]
  · intro pool a b c l h
    exact ⟨spawn_all_active pool a b c l h, by rw [spawn_length]⟩
  · intro reqs hlen
    rw [activeCount_spawnMany, hlen]
    have h0 : ∀ n : Nat, activeCount (List.replicate n initParticle) = 0 := by
      intro n
      induction n with
      | zero => rfl
      | succ m ih =>
          rw [List.replicate_succ]
          unfold activeCount at ih ⊢
          rw [List.countP_cons]
          simp [initParticle, ih]
    rw [h0, List.length_replicate]
    omega

/-- One concrete spawn request reused 250 times by the C8 witness. -/
def reqC8 : SpawnReq := (⟨1, 2, 3⟩, ⟨0, 1, 0⟩, 0xffaa00, 3 / 5)

theorem particle_pool_spawn_witness :
    spawn ([{ initParticle with active := true }] ++ initParticle :: [])
        ⟨1, 2, 3⟩ ⟨0, 1, 0⟩ 0xffaa00 (3 / 5)
      = [{ initParticle with active := true }]
        ++ spawnedParticle ⟨1, 2, 3⟩ ⟨0, 1, 0⟩ 0xffaa00 (3 / 5) :: [] ∧
    spawn [{ initParticle with active := true }] ⟨1, 2, 3⟩ ⟨0, 1, 0⟩ 0xffaa00 (3 / 5)
      = [{ initParticle with active := true }] ∧
    activeCount (spawnMany (List.replicate 200 initParticle)
        (List.replicate 250 reqC8)) = 200 := by
  refine ⟨?_, ?_, ?_⟩
  · exact particle_pool_spawn_contract.1 [{ initParticle with active := true }]
      initParticle [] ⟨1, 2, 3⟩ ⟨0, 1, 0⟩ 0xffaa00 (3 / 5)
      (by intro x hx; simp at hx; rw [hx]) rfl
  · exact (particle_pool_spawn_contract.2.1 [{ initParticle with active := true }]
      ⟨1, 2, 3⟩ ⟨0, 1, 0⟩ 0xffaa00 (3 / 5)
      (by intro q hq; simp at hq; rw [hq])).1
  · exact particle_pool_spawn_contract.2.2 (List.replicate 250 reqC8)
      (List.length_replicate 250 reqC8)

/-! ## Rules engine (src/core/ChessEngine.ts over the external chess.js)

The engine wrapper delegates to chess.js, which is outside this
repository.  Modelled from the spec: the oracle answers
`legalDestinations` and `submitMove`; an accepted move flips the side to
move and a rejected one (chess.js `move` returning null or throwing, both
mapped to null by ChessEngine.makeMove) leaves the engine position
unchanged.  The concrete rule content is carried by the oracle response
functions, so theorems quantify over every possible oracle. -/

/-- The move result assembled by ChessEngine.makeMove from the chess.js
move record and the post-move status queries. -/
structure MoveResult where
  piece : PieceType
  captured : Option PieceType
  promotion : Option PieceType
  isCheck : Bool
  isCheckmate : Bool
  isStalemate : Bool
deriving DecidableEq, Repr

/-- The rules engine: side to move plus the oracle response functions
(`getMovesForSquare` and the `makeMove` response, keyed by source,
destination and promotion choice).  Squares are identified with board
positions; the algebraic-notation string encoding used by the code is a
bijection on the board. -/
structure Engine where
  turn : PieceColor
  movesFor : Position → List Position
  respond : Position → Position → Option PieceType → Option MoveResult

/-- ChessEngine.makeMove: null on rejection with the position unchanged;
on acceptance the move record plus status flags, with the side to move
flipped (chess.js alternates the turn on every accepted move). -/
def Engine.makeMove (e : Engine) (src dst : Position) (promo : Option PieceType) :
    Option MoveResult × Engine :=
  match e.respond src dst promo with
  | none => (none, e)
  | some r => (some r, { e with turn := e.turn.flip })

/-! ## Turn orchestrator (src/core/GameState.ts, battle-enabled version)

Each method is a pure function from orchestrator state to the resolved
state paired with the trace of observable actions it performed, in
program order: battle cutscenes, registry mutations driven by the
animated piece moves, and emitted game events.  The asynchronous awaits
in the code serialize these actions on the single logical timeline, which
the trace order reflects. -/

/-- GameEvent type tags from src/core/GameState.ts. -/
inductive EventType where
  | move
  | capture
  | check
  | checkmate
  | stalemate
  | turn
  | select
  | deselect
deriving DecidableEq, Repr

/-- An emitted GameEvent: type plus the optional data, player and
position payload fields. -/
structure GameEvent where
  type : EventType
  data : Option MoveResult := none
  player : Option PieceColor := none
  pos : Option Position := none
deriving DecidableEq, Repr

/-- One observable action of the orchestrator pipeline. -/
inductive Effect where
  | battle (attackerPos defenderPos : Position)
      (attackerType : PieceType) (attackerColor : PieceColor)
  | removeP (p : Position)
  | relocate (src dst : Position)
  | addP (t : PieceType) (c : PieceColor) (p : Position)
  | event (e : GameEvent)
  | aiMoveScheduled
deriving DecidableEq, Repr

/-- Game mode from src/core/types.ts GameConfig. -/
inductive GameMode where
  | ai
  | local
deriving DecidableEq, Repr

/-- The configuration fields the orchestrator reads. -/
structure GameConfig where
  mode : GameMode
  playerColor : Option PieceColor
deriving DecidableEq, Repr

/-- Orchestrator state: the engine, the visual piece registry, whether a
battle manager and an AI are attached, the in-flight and AI-thinking
flags, the selection and its cached legal destinations, and the
configuration. -/
structure GState where
  engine : Engine
  registry : Registry
  hasBattleManager : Bool
  hasAI : Bool
  isProcessingMove : Bool
  aiThinking : Bool
  selectedPosition : Option Position
  validMoves : List Position
  config : GameConfig

/-- The deselect notification of GameState.clearSelection: emitted
exactly when a selection exists. -/
def deselEvents (o : Option Position) : List Effect :=
  match o with
  | some p => [Effect.event { type := .deselect, pos := some p }]
  | none => []

/-- GameState.clearSelection: emits `deselect` when a selection exists,
then clears the selection and the cached legal moves (the highlight
indicators are view-only). -/
def clearSelection (s : GState) : GState × List Effect :=
  (({ s with selectedPosition := none, validMoves := [] }),
    deselEvents s.selectedPosition)

/-- GameState.selectPiece: clears any existing selection, returns early
when the square is empty, otherwise stores the selection, caches the
legal destinations from the engine and emits `select`. -/
def selectPiece (s : GState) (p : Position) : GState × List Effect :=
  let cs := clearSelection s
  match (cs.1).registry p with
  | none => cs
  | some piece =>
      ({ cs.1 with
          selectedPosition := some p
          validMoves := (cs.1).engine.movesFor p },
        cs.2 ++ [Effect.event
          { type := .select, player := some piece.color, pos := some p }])

/-- The promotion choice computed at the top of GameState.executeMove: an
explicit override wins; otherwise a pawn of the mover reaching the far
rank promotes to a queen by default. -/
def computedPromotion (r : Registry) (src dst : Position)
    (promotionOverride : Option PieceType) : Option PieceType :=
  match promotionOverride with
  | some po => some po
  | none =>
      match r src with
      | some ap =>
          if ap.type = .p ∧ ((ap.color = .w ∧ dst.rank = 7) ∨ (ap.color = .b ∧ dst.rank = 0))
          then some .q else none
      | none => none

/-- GameState.handleCastling (registry effect and trace): when the mover
color is known and the move is a king stepping two files from its home
square, the paired rook is relocated with an animated move; otherwise a
no-op.  Only the piece renderer is touched, so the function acts on the
registry alone. -/
def handleCastlingReg (r : Registry) (src dst : Position)
    (color : Option PieceColor) : Registry × List Effect :=
  match color with
  | none => (r, [])
  | some _ =>
      if src.file = 4 ∧ (src.rank = 0 ∨ src.rank = 7) ∧ (dst.file - src.file).natAbs = 2 then
        if dst.file = 6 then
          (movePieceReg r ⟨7, src.rank⟩ ⟨5, src.rank⟩,
            [Effect.relocate ⟨7, src.rank⟩ ⟨5, src.rank⟩])
        else if dst.file = 2 then
          (movePieceReg r ⟨0, src.rank⟩ ⟨3, src.rank⟩,
            [Effect.relocate ⟨0, src.rank⟩ ⟨3, src.rank⟩])
        else (r, [])
      else (r, [])

/-- GameState.handleEnPassant (registry effect and trace): when the mover
color is known, the move record says a pawn captured a pawn, the move was
one square diagonal, and a pawn is still present at the geometrically
computed square `(destination.file, source.rank)`, a battle is played
against that square (when a battle manager is attached) and the piece
there is removed; otherwise a no-op. -/
def handleEnPassantReg (r : Registry) (src dst : Position) (result : MoveResult)
    (color : Option PieceColor) (hasBM : Bool) : Registry × List Effect :=
  match color with
  | none => (r, [])
  | some c =>
      if result.piece = .p ∧ result.captured = some .p then
        if (dst.file - src.file).natAbs = 1 ∧ (dst.rank - src.rank).natAbs = 1 then
          let cpos : Position := ⟨dst.file, src.rank⟩
          match r cpos with
          | some cp =>
              if cp.type = .p then
                (removePieceReg r cpos,
                  (if hasBM then [Effect.battle src cpos .p c] else [])
                    ++ [Effect.removeP cpos])
              else (r, [])
          | none => (r, [])
        else (r, [])
      else (r, [])

/-- Modelled from the spec: PieceRenderer.animateMovePiece, the walking
tween used by the battle-enabled GameState for the primary and the
castling rook relocations.  It is called from src/core/GameState.ts but
its definition is not among the source files; per the spec it moves the
piece from source to destination with a positional tween, so its registry
effect is that of movePiece and its observable action is one relocation. -/
def animateMovePieceReg (r : Registry) (src dst : Position) :
    Registry × List Effect :=
  (movePieceReg r src dst, [Effect.relocate src dst])

/-- The capture block at the top of the accepted-move pipeline: when the
destination held a piece, the attacker is known and a battle manager is
attached, await the battle against the destination, remove the captured
piece and emit `capture`; otherwise, when the engine reported a capture
but the destination was empty (en passant), emit `capture` alone — the
battle for it is played by the en-passant handler. -/
def captureStep (s2 : GState) (src dst : Position)
    (capturedPiece attackerPiece : Option PieceData) (result : MoveResult) :
    GState × List Effect :=
  match capturedPiece, attackerPiece, s2.hasBattleManager with
  | some _, some ap, true =>
      ({ s2 with registry := removePieceReg s2.registry dst },
        [Effect.battle src dst ap.type ap.color, Effect.removeP dst,
          Effect.event
            { type := .capture, data := some result, player := some ap.color }])
  | _, _, _ =>
      if result.captured.isSome ∧ capturedPiece = none then
        (s2, [Effect.event
          { type := .capture
            data := some result
            player := attackerPiece.map (·.color) }])
      else (s2, [])

/-- The promotion block: when the engine reported a promotion and the
attacker is known, the moved pawn is removed at the destination and the
promoted piece is created there. -/
def promoStep (s6 : GState) (dst : Position) (attackerPiece : Option PieceData)
    (result : MoveResult) : GState × List Effect :=
  match result.promotion, attackerPiece with
  | some promoP, some ap =>
      ({ s6 with registry :=
          addPieceReg (removePieceReg s6.registry dst) promoP ap.color dst },
        [Effect.removeP dst, Effect.addP promoP ap.color dst])
  | _, _ => (s6, [])

/-- The event tail of the accepted-move pipeline: `move`, then `check`
when checked but not mated, then exactly one of the checkmate event (the
pipeline returns early), the stalemate event (likewise), or the `turn`
event followed by scheduling the AI reply when the new side to move is
the attached AI player. -/
def tailEvents (s7 : GState) (attackerPiece : Option PieceData)
    (result : MoveResult) : List Effect :=
  [Effect.event
    { type := .move
      data := some result
      player := attackerPiece.map (·.color) }]
  ++ (if result.isCheck ∧ ¬result.isCheckmate then
        [Effect.event
          { type := .check, data := some result, player := some s7.engine.turn }]
      else [])
  ++ (if result.isCheckmate then
        [Effect.event
          { type := .checkmate
            data := some result
            player := attackerPiece.map (·.color) }]
      else if result.isStalemate then
        [Effect.event { type := .stalemate, data := some result }]
      else
        [Effect.event { type := .turn, player := some s7.engine.turn }]
        ++ (if s7.config.mode = .ai ∧ s7.hasAI = true
              ∧ s7.engine.turn ≠ s7.config.playerColor.getD .w then
              [Effect.aiMoveScheduled]
            else []))

/-- GameState.executeMove: guarded by the in-flight flag, which is set for
the whole pipeline and cleared in the `finally`.  The pipeline: read the
attacker and any piece at the destination, compute the promotion choice,
submit to the engine; on rejection log, clear the selection and return.
On acceptance: clear the selection; run the capture block; handle
castling; handle en passant; move the primary piece with the walking
animation (modelled from the spec: the animated move has the same
registry effect as movePiece); run the promotion block; emit the event
tail.  In every branch the flag is cleared only when the whole pipeline
has resolved. -/
def executeMove (s : GState) (src dst : Position)
    (promotionOverride : Option PieceType) : GState × List Effect :=
  if s.isProcessingMove then (s, [])
  else
    let s0 : GState := { s with isProcessingMove := true }
    let attackerPiece := s0.registry src
    let capturedPiece := s0.registry dst
    let promotion := computedPromotion s0.registry src dst promotionOverride
    match s0.engine.makeMove src dst promotion with
    | (none, e1) =>
        let cs := clearSelection { s0 with engine := e1 }
        ({ cs.1 with isProcessingMove := false }, cs.2)
    | (some result, e1) =>
        let cs := clearSelection { s0 with engine := e1 }
        let st3 := captureStep cs.1 src dst capturedPiece attackerPiece result
        let st4 := handleCastlingReg st3.1.registry src dst (attackerPiece.map (·.color))
        let s4 : GState := { st3.1 with registry := st4.1 }
        let st5 := handleEnPassantReg s4.registry src dst result
          (attackerPiece.map (·.color)) s4.hasBattleManager
        let s5 : GState := { s4 with registry := st5.1 }
        let st6 := animateMovePieceReg s5.registry src dst
        let s6 : GState := { s5 with registry := st6.1 }
        let st7 := promoStep s6 dst attackerPiece result
        ({ st7.1 with isProcessingMove := false },
          cs.2 ++ st3.2 ++ st4.2 ++ st5.2 ++ st6.2 ++ st7.2
            ++ tailEvents st7.1 attackerPiece result)

/-- GameState.handleSquareClick: dropped while a move is in flight or the
AI is thinking; in AI mode dropped unless it is the human player turn.
With a selection: a click on a cached legal destination executes the
move; a click on an own piece re-selects; anything else deselects.
Without a selection: a click on an own piece selects it; anything else is
ignored. -/
def handleSquareClick (s : GState) (p : Position) : GState × List Effect :=
  if s.isProcessingMove then (s, [])
  else if s.aiThinking then (s, [])
  else if s.config.mode = .ai ∧ s.engine.turn ≠ s.config.playerColor.getD .w then (s, [])
  else
    let clickedPiece := s.registry p
    let currentPlayer := s.engine.turn
    match s.selectedPosition with
    | some selPos =>
        if p ∈ s.validMoves then executeMove s selPos p none
        else
          match clickedPiece with
          | some cp =>
              if cp.color = currentPlayer then selectPiece s p else clearSelection s
          | none => clearSelection s
    | none =>
        match clickedPiece with
        | some cp => if cp.color = currentPlayer then selectPiece s p else (s, [])
        | none => (s, [])

/-! ## Trace helpers and pipeline normal forms -/

/-- The game events contained in a trace, in order. -/
def eventsOf (tr : List Effect) : List GameEvent :=
  tr.filterMap fun e =>
    match e with
    | .event g => some g
    | _ => none

theorem eventsOf_append (a b : List Effect) :
    eventsOf (a ++ b) = eventsOf a ++ eventsOf b :=
  List.filterMap_append a b _

/-- Normal form of an accepted move: with the in-flight guard passed and
the engine accepting, executeMove is the straight-line composition of the
selection clear, the capture block, the castling and en-passant handlers,
the primary relocation, the promotion block and the event tail, with the
in-flight flag cleared at the end. -/
theorem executeMove_accepted (s : GState) (src dst : Position)
    (promoOv : Option PieceType) (result : MoveResult)
    (h0 : s.isProcessingMove = false)
    (hres : s.engine.respond src dst (computedPromotion s.registry src dst promoOv)
      = some result) :
    executeMove s src dst promoOv =
      (let s2 : GState :=
        { s with
            isProcessingMove := true
            engine := { s.engine with turn := s.engine.turn.flip }
            selectedPosition := none
            validMoves := [] }
       let st3 := captureStep s2 src dst (s.registry dst) (s.registry src) result
       let st4 := handleCastlingReg st3.1.registry src dst ((s.registry src).map (·.color))
       let st5 := handleEnPassantReg st4.1 src dst result ((s.registry src).map (·.color))
         st3.1.hasBattleManager
       let st7 := promoStep { st3.1 with registry := movePieceReg st5.1 src dst } dst
         (s.registry src) result
       ({ st7.1 with isProcessingMove := false },
        deselEvents s.selectedPosition ++ st3.2 ++ st4.2 ++ st5.2
          ++ [Effect.relocate src dst]
          ++ st7.2 ++ tailEvents st7.1 (s.registry src) result)) := by
  unfold executeMove
  rw [if_neg (by simp [h0])]
  simp only [Engine.makeMove]
  rw [hres]
  rfl

/-- Normal form of a rejected move: with the in-flight guard passed and
the engine rejecting, executeMove clears the selection, leaves the engine
and the registry untouched, emits only the possible `deselect`, and
resolves with the in-flight flag false. -/
theorem executeMove_rejected (s : GState) (src dst : Position)
    (promoOv : Option PieceType)
    (h0 : s.isProcessingMove = false)
    (hres : s.engine.respond src dst (computedPromotion s.registry src dst promoOv)
      = none) :
    executeMove s src dst promoOv =
      ({ s with isProcessingMove := false, selectedPosition := none, validMoves := [] },
        deselEvents s.selectedPosition) := by
  unfold executeMove
  rw [if_neg (by simp [h0])]
  simp only [Engine.makeMove]
  rw [hres]
  rfl

/-- Claim C1: while a move is in flight (`isProcessingMove` true), every
click-handling entry point is a no-op — handleSquareClick returns
immediately with the whole orchestrator state (selection, engine,
registry and the rest) unchanged and emits nothing, and a direct
executeMove entry (the AI path) is rejected the same way. -/
theorem click_rejected_while_in_flight (s : GState) (p src dst : Position)
    (promotionOverride : Option PieceType) (h : s.isProcessingMove = true) :
    handleSquareClick s p = (s, []) ∧
    executeMove s src dst promotionOverride = (s, []) := by
  constructor
  · unfold handleSquareClick
    rw [if_pos (by simp [h])]
  · unfold executeMove
    rw [if_pos (by simp [h])]

/-- Concrete engine for closed witnesses: white to move, no legal
destinations reported, every submission rejected. -/
def engineIdle : Engine :=
  { turn := .w, movesFor := fun _ => [], respond := fun _ _ _ => none }

/-- Concrete in-flight orchestrator state for the C1 witness. -/
def stateC1 : GState :=
  { engine := engineIdle, registry := regC2, hasBattleManager := true,
    hasAI := false, isProcessingMove := true, aiThinking := false,
    selectedPosition := none, validMoves := [],
    config := { mode := .local, playerColor := none } }

theorem click_rejected_while_in_flight_witness :
    handleSquareClick stateC1 ⟨4, 3⟩ = (stateC1, []) ∧
    executeMove stateC1 ⟨4, 3⟩ ⟨3, 4⟩ none = (stateC1, []) :=
  click_rejected_while_in_flight stateC1 ⟨4, 3⟩ ⟨4, 3⟩ ⟨3, 4⟩ none rfl

/-! ## Segment case analyses -/

theorem position_ne_of_file_ne {k m : Position} (h : k.file ≠ m.file) : k ≠ m :=
  fun he => h (congrArg Position.file he)

theorem position_ne_of_rank_ne {k m : Position} (h : k.rank ≠ m.rank) : k ≠ m :=
  fun he => h (congrArg Position.rank he)

theorem removePieceReg_apply_ne (r : Registry) (p k : Position) (hk : k ≠ p) :
    removePieceReg r p k = r k := by
  simp [removePieceReg, hk]

theorem movePieceReg_apply_ne (r : Registry) (a b k : Position)
    (hka : k ≠ a) (hkb : k ≠ b) : movePieceReg r a b k = r k := by
  unfold movePieceReg
  cases h : r a with
  | none => rfl
  | some d => simp [hka, hkb]

theorem movePieceReg_apply_dst (r : Registry) (a b : Position) (d : PieceData)
    (ha : r a = some d) : movePieceReg r a b b = some ⟨d.type, d.color, b⟩ := by
  unfold movePieceReg
  rw [ha]
  simp

theorem movePieceReg_apply_src (r : Registry) (a b : Position) (d : PieceData)
    (ha : r a = some d) (hab : a ≠ b) : movePieceReg r a b a = none := by
  unfold movePieceReg
  rw [ha]
  simp [hab]

/-- Case analysis of the castling handler: either a no-op, or the rook
relocation of the matching side under the king-two-files geometry. -/
theorem handleCastlingReg_cases (r : Registry) (src dst : Position)
    (c : Option PieceColor) :
    handleCastlingReg r src dst c = (r, []) ∨
    (src.file = 4 ∧ (src.rank = 0 ∨ src.rank = 7) ∧ (dst.file - src.file).natAbs = 2 ∧
      ((dst.file = 6 ∧ handleCastlingReg r src dst c =
          (movePieceReg r ⟨7, src.rank⟩ ⟨5, src.rank⟩,
            [Effect.relocate ⟨7, src.rank⟩ ⟨5, src.rank⟩])) ∨
        (dst.file = 2 ∧ handleCastlingReg r src dst c =
          (movePieceReg r ⟨0, src.rank⟩ ⟨3, src.rank⟩,
            [Effect.relocate ⟨0, src.rank⟩ ⟨3, src.rank⟩])))) := by
  cases c with
  | none => exact Or.inl rfl
  | some cc =>
      by_cases h1 : src.file = 4 ∧ (src.rank = 0 ∨ src.rank = 7)
          ∧ (dst.file - src.file).natAbs = 2
      · by_cases h6 : dst.file = 6
        · exact Or.inr ⟨h1.1, h1.2.1, h1.2.2, Or.inl ⟨h6, by
            unfold handleCastlingReg
            rw [if_pos h1, if_pos h6]⟩⟩
        · by_cases h2 : dst.file = 2
          · exact Or.inr ⟨h1.1, h1.2.1, h1.2.2, Or.inr ⟨h2, by
              unfold handleCastlingReg
              rw [if_pos h1, if_neg h6, if_pos h2]⟩⟩
          · refine Or.inl ?_
            unfold handleCastlingReg
            rw [if_pos h1, if_neg h6, if_neg h2]
      · refine Or.inl ?_
        unfold handleCastlingReg
        rw [if_neg h1]

/-- Case analysis of the en-passant handler: either a no-op, or the
battle-then-remove against the computed square `(dst.file, src.rank)`
under the pawn-takes-pawn one-square-diagonal conditions. -/
theorem handleEnPassantReg_cases (r : Registry) (src dst : Position)
    (result : MoveResult) (c : Option PieceColor) (hasBM : Bool) :
    handleEnPassantReg r src dst result c hasBM = (r, []) ∨
    (∃ cc cp, c = some cc ∧ result.piece = .p ∧ result.captured = some .p ∧
      (dst.file - src.file).natAbs = 1 ∧ (dst.rank - src.rank).natAbs = 1 ∧
      r ⟨dst.file, src.rank⟩ = some cp ∧ cp.type = .p ∧
      handleEnPassantReg r src dst result c hasBM =
        (removePieceReg r ⟨dst.file, src.rank⟩,
          (if hasBM then [Effect.battle src ⟨dst.file, src.rank⟩ .p cc] else [])
            ++ [Effect.removeP ⟨dst.file, src.rank⟩])) := by
  cases c with
  | none => exact Or.inl rfl
  | some cc =>
      by_cases hpc : result.piece = .p ∧ result.captured = some .p
      · by_cases hgeo : (dst.file - src.file).natAbs = 1 ∧ (dst.rank - src.rank).natAbs = 1
        · cases hcp : r ⟨dst.file, src.rank⟩ with
          | none =>
              refine Or.inl ?_
              simp only [handleEnPassantReg]
              rw [if_pos hpc, if_pos hgeo]
              simp only [hcp]
          | some cp =>
              by_cases hty : cp.type = .p
              · refine Or.inr ⟨cc, cp, rfl, hpc.1, hpc.2, hgeo.1, hgeo.2, hcp ▸ rfl, hty, ?_⟩
                simp only [handleEnPassantReg]
                rw [if_pos hpc, if_pos hgeo]
                simp only [hcp]
                rw [if_pos hty]
              · refine Or.inl ?_
                simp only [handleEnPassantReg]
                rw [if_pos hpc, if_pos hgeo]
                simp only [hcp]
                rw [if_neg hty]
        · refine Or.inl ?_
          simp only [handleEnPassantReg]
          rw [if_pos hpc, if_neg hgeo]
      · refine Or.inl ?_
        simp only [handleEnPassantReg]
        rw [if_neg hpc]

/-- Neither castling case emits a game event. -/
theorem eventsOf_handleCastlingReg (r : Registry) (src dst : Position)
    (c : Option PieceColor) :
    eventsOf (handleCastlingReg r src dst c).2 = [] := by
  rcases handleCastlingReg_cases r src dst c with h | ⟨_, _, _, ⟨_, h⟩ | ⟨_, h⟩⟩ <;>
    rw [h] <;> rfl

/-- Neither en-passant case emits a game event. -/
theorem eventsOf_handleEnPassantReg (r : Registry) (src dst : Position)
    (result : MoveResult) (c : Option PieceColor) (hasBM : Bool) :
    eventsOf (handleEnPassantReg r src dst result c hasBM).2 = [] := by
  rcases handleEnPassantReg_cases r src dst result c hasBM with
    h | ⟨cc, cp, _, _, _, _, _, _, _, h⟩
  · rw [h]; rfl
  · rw [h]
    cases hasBM <;> rfl

/-- The castling handler leaves the registry unchanged at every key whose
file is none of 0, 3, 5, 7 (in particular at the move source, the move
destination and the computed en-passant square). -/
theorem handleCastlingReg_apply (r : Registry) (src dst : Position)
    (c : Option PieceColor) (k : Position)
    (hk : k.file ≠ 0 ∧ k.file ≠ 3 ∧ k.file ≠ 5 ∧ k.file ≠ 7) :
    (handleCastlingReg r src dst c).1 k = r k := by
  rcases handleCastlingReg_cases r src dst c with h | ⟨_, _, _, ⟨_, h⟩ | ⟨_, h⟩⟩ <;> rw [h]
  · exact movePieceReg_apply_ne r _ _ k (position_ne_of_file_ne hk.2.2.2)
      (position_ne_of_file_ne hk.2.2.1)
  · exact movePieceReg_apply_ne r _ _ k (position_ne_of_file_ne hk.1)
      (position_ne_of_file_ne hk.2.1)

/-- The en-passant handler leaves the registry unchanged away from the
computed square. -/
theorem handleEnPassantReg_apply (r : Registry) (src dst : Position)
    (result : MoveResult) (c : Option PieceColor) (hasBM : Bool) (k : Position)
    (hk : k ≠ ⟨dst.file, src.rank⟩) :
    (handleEnPassantReg r src dst result c hasBM).1 k = r k := by
  rcases handleEnPassantReg_cases r src dst result c hasBM with
    h | ⟨cc, cp, _, _, _, _, _, _, _, h⟩ <;> rw [h]
  exact removePieceReg_apply_ne r _ k hk

/-- Whether an effect is an emitted game event of the given type. -/
def effectHasType (t : EventType) : Effect → Bool :=
  fun e =>
    match e with
    | .event g => decide (g.type = t)
    | _ => false

/-! ## Claim C7: move rejection is local, recoverable and atomic -/

/-- Claim C7 (amended): with a piece selected, clicking a square that is
neither a recorded legal destination nor an own-faction piece emits
`deselect`, emits no move-committed event, returns the orchestrator to
Idle and leaves the board (registry and engine) unchanged; a click on an
own-faction piece instead re-selects it.  And whenever the engine rejects
a submitted move, makeMove returns null with the engine position
unchanged, and the orchestrator clears the selection and resolves without
mutating any visual piece and with the in-flight flag false — never
fatal. -/
theorem move_rejection_local_recoverable :
    (∀ (s : GState) (p sel : Position),
        s.isProcessingMove = false → s.aiThinking = false →
        ¬(s.config.mode = .ai ∧ s.engine.turn ≠ s.config.playerColor.getD .w) →
        s.selectedPosition = some sel → p ∉ s.validMoves →
        (∀ cp, s.registry p = some cp → cp.color ≠ s.engine.turn) →
        handleSquareClick s p =
          ({ s with selectedPosition := none, validMoves := [] },
            [Effect.event { type := .deselect, pos := some sel }])) ∧
    (∀ (s : GState) (src dst : Position) (promoOv : Option PieceType),
        s.isProcessingMove = false →
        s.engine.respond src dst (computedPromotion s.registry src dst promoOv) = none →
        executeMove s src dst promoOv =
          ({ s with
              isProcessingMove := false
              selectedPosition := none
              validMoves := [] },
            deselEvents s.selectedPosition)) := by
  constructor
  · intro s p sel h0 hai hguard hsel hnv hcp
    unfold handleSquareClick
    rw [if_neg (by simp [h0])]
    rw [if_neg (by simp [hai])]
    rw [if_neg hguard]
    simp only [hsel]
    rw [if_neg hnv]
    cases hreg : s.registry p with
    | none =>
        simp only [hreg]
        simp [clearSelection, deselEvents, hsel]
    | some cp =>
        simp only [hreg]
        rw [if_neg (hcp cp hreg)]
        simp [clearSelection, deselEvents, hsel]
  · intro s src dst promoOv h0 hres
    exact executeMove_rejected s src dst promoOv h0 hres

/-- Concrete engine for the C7 scenario: white to move, every submission
rejected. -/
def engineC7 : Engine :=
  { turn := .w, movesFor := fun _ => [], respond := fun _ _ _ => none }

/-- Concrete registry for the C7 scenario: white pawns on e2 and d2, a
black pawn on a7. -/
def regC7 : Registry := fun q =>
  if q = ⟨4, 1⟩ then some ⟨.p, .w, ⟨4, 1⟩⟩
  else if q = ⟨3, 1⟩ then some ⟨.p, .w, ⟨3, 1⟩⟩
  else if q = ⟨0, 6⟩ then some ⟨.p, .b, ⟨0, 6⟩⟩
  else none

/-- Concrete C7 state: e2 selected with legal destinations e3 and e4. -/
def stateC7 : GState :=
  { engine := engineC7, registry := regC7, hasBattleManager := true,
    hasAI := false, isProcessingMove := false, aiThinking := false,
    selectedPosition := some ⟨4, 1⟩, validMoves := [⟨4, 2⟩, ⟨4, 3⟩],
    config := { mode := .local, playerColor := none } }

/-- Counterexample to claim C7 as stated: clicking d2, which is not a
recorded legal destination, does not return the orchestrator to Idle —
the square holds an own-faction piece, so the click re-selects it,
leaving a selection in place and emitting a selection event after the
deselect. -/
theorem click_nonlegal_counterexample :
    ((⟨3, 1⟩ : Position) ∉ stateC7.validMoves) ∧
    (handleSquareClick stateC7 ⟨3, 1⟩).1.selectedPosition = some ⟨3, 1⟩ ∧
    (handleSquareClick stateC7 ⟨3, 1⟩).2 =
      [Effect.event { type := .deselect, pos := some ⟨4, 1⟩ },
        Effect.event { type := .select, player := some .w, pos := some ⟨3, 1⟩ }] :=
  ⟨by decide, rfl, rfl⟩

theorem move_rejection_witness :
    handleSquareClick stateC7 ⟨0, 6⟩ =
      ({ stateC7 with selectedPosition := none, validMoves := [] },
        [Effect.event { type := .deselect, pos := some ⟨4, 1⟩ }]) ∧
    executeMove stateC7 ⟨4, 1⟩ ⟨4, 3⟩ none =
      ({ stateC7 with
          isProcessingMove := false
          selectedPosition := none
          validMoves := [] },
        [Effect.event { type := .deselect, pos := some ⟨4, 1⟩ }]) := by
  constructor
  · exact move_rejection_local_recoverable.1 stateC7 ⟨0, 6⟩ ⟨4, 1⟩ rfl rfl
      (by decide) rfl (by decide) (by intro cp h; cases h; decide)
  · exact move_rejection_local_recoverable.2 stateC7 ⟨4, 1⟩ ⟨4, 3⟩ none rfl rfl

/-! ## Claim C6: checkmate handling -/

/-- The capture block emits no event other than `capture`. -/
theorem filter_captureStep (s2 : GState) (src dst : Position)
    (cp ap : Option PieceData) (result : MoveResult) (t : EventType)
    (ht : t ≠ .capture) :
    ((captureStep s2 src dst cp ap result).2.filter (effectHasType t)) = [] := by
  unfold captureStep
  split
  · simp [effectHasType, Ne.symm ht]
  · split
    · simp [effectHasType, Ne.symm ht]
    · rfl

/-- The castling handler emits no event at all. -/
theorem filter_handleCastlingReg (r : Registry) (src dst : Position)
    (c : Option PieceColor) (t : EventType) :
    ((handleCastlingReg r src dst c).2.filter (effectHasType t)) = [] := by
  rcases handleCastlingReg_cases r src dst c with h | ⟨_, _, _, ⟨_, h⟩ | ⟨_, h⟩⟩ <;>
    rw [h] <;> rfl

/-- The en-passant handler emits no event at all. -/
theorem filter_handleEnPassantReg (r : Registry) (src dst : Position)
    (result : MoveResult) (c : Option PieceColor) (hasBM : Bool) (t : EventType) :
    ((handleEnPassantReg r src dst result c hasBM).2.filter (effectHasType t)) = [] := by
  rcases handleEnPassantReg_cases r src dst result c hasBM with
    h | ⟨cc, cp, _, _, _, _, _, _, _, h⟩
  · rw [h]; rfl
  · rw [h]; cases hasBM <;> rfl

/-- The promotion block emits no event at all. -/
theorem filter_promoStep (s6 : GState) (dst : Position) (ap : Option PieceData)
    (result : MoveResult) (t : EventType) :
    ((promoStep s6 dst ap result).2.filter (effectHasType t)) = [] := by
  unfold promoStep
  split <;> rfl

/-- The deselect notification never carries another event type. -/
theorem filter_deselEvents (o : Option Position) (t : EventType)
    (ht : t ≠ .deselect) :
    ((deselEvents o).filter (effectHasType t)) = [] := by
  cases o with
  | none => rfl
  | some q => simp [deselEvents, effectHasType, Ne.symm ht]

/-- On a checkmate result, the event tail carries exactly one checkmate
event, attributed to the attacker. -/
theorem filter_tailEvents_cm (s7 : GState) (ap : Option PieceData)
    (result : MoveResult) (hcm : result.isCheckmate = true) :
    ((tailEvents s7 ap result).filter (effectHasType .checkmate)) =
      [Effect.event
        { type := .checkmate
          data := some result
          player := ap.map (·.color) }] := by
  unfold tailEvents
  rw [hcm]
  simp [effectHasType]

/-- On a checkmate result, the event tail carries no turn event. -/
theorem filter_tailEvents_cm_noturn (s7 : GState) (ap : Option PieceData)
    (result : MoveResult) (hcm : result.isCheckmate = true) :
    ((tailEvents s7 ap result).filter (effectHasType .turn)) = [] := by
  unfold tailEvents
  rw [hcm]
  simp [effectHasType]

/-- Claim C6 (amended): every move whose result has the checkmate flag set
causes exactly one checkmate (game-over) event, attributed to the mover
faction; no turn-change event is emitted for that move, and the pipeline
resolves with the in-flight flag cleared.  (The orchestrator has no
terminal GameOver state: the companion counterexample shows a subsequent
click re-selecting a piece rather than being ignored; only the absence of
legal destinations prevents further moves until an external reset.) -/
theorem checkmate_single_gameover (s : GState) (src dst : Position)
    (promoOv : Option PieceType) (result : MoveResult) (d : PieceData)
    (h0 : s.isProcessingMove = false)
    (hd : s.registry src = some d)
    (hres : s.engine.respond src dst (computedPromotion s.registry src dst promoOv)
      = some result)
    (hcm : result.isCheckmate = true) :
    ((executeMove s src dst promoOv).2.filter (effectHasType .checkmate)) =
      [Effect.event
        { type := .checkmate
          data := some result
          player := some d.color }] ∧
    ((executeMove s src dst promoOv).2.filter (effectHasType .turn)) = [] ∧
    (executeMove s src dst promoOv).1.isProcessingMove = false := by
  rw [executeMove_accepted s src dst promoOv result h0 hres]
  simp only [List.filter_append]
  refine ⟨?_, ?_, trivial⟩
  · rw [filter_deselEvents _ _ (by simp), filter_captureStep _ _ _ _ _ _ _ (by simp),
      filter_handleCastlingReg, filter_handleEnPassantReg,
      filter_promoStep, filter_tailEvents_cm _ _ _ hcm, hd]
    rfl
  · rw [filter_deselEvents _ _ (by simp), filter_captureStep _ _ _ _ _ _ _ (by simp),
      filter_handleCastlingReg, filter_handleEnPassantReg,
      filter_promoStep, filter_tailEvents_cm_noturn _ _ _ hcm]
    rfl

/-- The checkmate move result of the concrete C6 scenario. -/
def resultC6 : MoveResult :=
  { piece := .q, captured := none, promotion := none, isCheck := true,
    isCheckmate := true, isStalemate := false }

/-- Concrete engine for the C6 scenario: white to move, the submission
accepted with the checkmate flag set. -/
def engineC6 : Engine :=
  { turn := .w, movesFor := fun _ => [], respond := fun _ _ _ => some resultC6 }

/-- Concrete registry for the C6 scenario: a white queen on a1, the black
king on e8. -/
def regC6 : Registry := fun q =>
  if q = ⟨0, 0⟩ then some ⟨.q, .w, ⟨0, 0⟩⟩
  else if q = ⟨4, 7⟩ then some ⟨.k, .b, ⟨4, 7⟩⟩
  else none

/-- Concrete C6 state: a1 selected, a8 a recorded legal destination. -/
def stateC6 : GState :=
  { engine := engineC6, registry := regC6, hasBattleManager := true,
    hasAI := false, isProcessingMove := false, aiThinking := false,
    selectedPosition := some ⟨0, 0⟩, validMoves := [⟨0, 7⟩],
    config := { mode := .local, playerColor := none } }

/-- Counterexample to claim C6 as stated: after a checkmating move (whose
trace does end in the single checkmate event) the orchestrator is not in
a terminal state — a subsequent click on the mated side king is not a
no-op: it changes the selection and emits a selection event. -/
theorem checkmate_not_terminal_counterexample :
    ((executeMove stateC6 ⟨0, 0⟩ ⟨0, 7⟩ none).2.getLast?
      = some (Effect.event
        { type := .checkmate, data := some resultC6, player := some .w })) ∧
    (handleSquareClick (executeMove stateC6 ⟨0, 0⟩ ⟨0, 7⟩ none).1 ⟨4, 7⟩).1.selectedPosition
      = some ⟨4, 7⟩ ∧
    (handleSquareClick (executeMove stateC6 ⟨0, 0⟩ ⟨0, 7⟩ none).1 ⟨4, 7⟩).2
      = [Effect.event { type := .select, player := some .b, pos := some ⟨4, 7⟩ }] :=
  ⟨rfl, rfl, rfl⟩

/-! ## Claim C4: simple capture -/

/-- The castling handler never touches the move source square (the rook
squares have file 0, 3, 5 or 7 while a castling source has file 4). -/
theorem handleCastlingReg_apply_src (r : Registry) (src dst : Position)
    (c : Option PieceColor) :
    (handleCastlingReg r src dst c).1 src = r src := by
  rcases handleCastlingReg_cases r src dst c with h | ⟨h4, _, _, ⟨h6, h⟩ | ⟨h2, h⟩⟩ <;>
    rw [h]
  · exact movePieceReg_apply_ne r _ _ src
      (position_ne_of_file_ne (by simp [h4]))
      (position_ne_of_file_ne (by simp [h4]))
  · exact movePieceReg_apply_ne r _ _ src
      (position_ne_of_file_ne (by simp [h4]))
      (position_ne_of_file_ne (by simp [h4]))

/-- The castling handler never touches the move destination square (a
castling destination has file 6 or 2, never a rook square). -/
theorem handleCastlingReg_apply_dst (r : Registry) (src dst : Position)
    (c : Option PieceColor) :
    (handleCastlingReg r src dst c).1 dst = r dst := by
  rcases handleCastlingReg_cases r src dst c with h | ⟨h4, _, _, ⟨h6, h⟩ | ⟨h2, h⟩⟩ <;>
    rw [h]
  · exact movePieceReg_apply_ne r _ _ dst
      (position_ne_of_file_ne (by simp [h6]))
      (position_ne_of_file_ne (by simp [h6]))
  · exact movePieceReg_apply_ne r _ _ dst
      (position_ne_of_file_ne (by simp [h2]))
      (position_ne_of_file_ne (by simp [h2]))

/-- The en-passant handler never touches the move source square: when it
acts, the file difference is 1, so the computed square is on a different
file than the source. -/
theorem handleEnPassantReg_apply_src (r : Registry) (src dst : Position)
    (result : MoveResult) (c : Option PieceColor) (hasBM : Bool) :
    (handleEnPassantReg r src dst result c hasBM).1 src = r src := by
  rcases handleEnPassantReg_cases r src dst result c hasBM with
    h | ⟨cc, cp, _, _, _, hf, _, _, _, h⟩ <;> rw [h]
  apply removePieceReg_apply_ne
  apply position_ne_of_file_ne
  intro heq
  rw [heq] at hf
  simp at hf

/-- The en-passant handler never touches the move destination square:
when it acts, the rank difference is 1, so the computed square is on a
different rank than the destination. -/
theorem handleEnPassantReg_apply_dst (r : Registry) (src dst : Position)
    (result : MoveResult) (c : Option PieceColor) (hasBM : Bool) :
    (handleEnPassantReg r src dst result c hasBM).1 dst = r dst := by
  rcases handleEnPassantReg_cases r src dst result c hasBM with
    h | ⟨cc, cp, _, _, _, _, hr, _, _, h⟩ <;> rw [h]
  apply removePieceReg_apply_ne
  apply position_ne_of_rank_ne
  intro heq
  rw [heq] at hr
  simp at hr

/-- A piece absent from the registry stays absent through removePiece. -/
theorem notin_removePieceReg (r : Registry) (x : PieceData) (p : Position)
    (h : ∀ k, r k ≠ some x) : ∀ k, removePieceReg r p k ≠ some x := by
  intro k
  unfold removePieceReg
  split
  · simp
  · exact h k

/-- A piece absent from the registry stays absent through movePiece as
long as the re-inserted data cannot equal it. -/
theorem notin_movePieceReg (r : Registry) (x : PieceData) (a b : Position)
    (h : ∀ k, r k ≠ some x)
    (hins : ∀ d, r a = some d → ({ d with position := b } : PieceData) ≠ x) :
    ∀ k, movePieceReg r a b k ≠ some x := by
  intro k
  unfold movePieceReg
  cases hra : r a with
  | none => exact h k
  | some d =>
      simp only
      split
      · intro hc
        exact hins d hra (Option.some.inj hc)
      · split
        · simp
        · exact h k

/-- A piece whose recorded position is the move destination stays absent
through the castling handler (the rook lands on file 5 or 3, the
destination has file 6 or 2). -/
theorem notin_handleCastlingReg (r : Registry) (x : PieceData)
    (src dst : Position) (c : Option PieceColor)
    (hx : x.position = dst) (h : ∀ k, r k ≠ some x) :
    ∀ k, (handleCastlingReg r src dst c).1 k ≠ some x := by
  rcases handleCastlingReg_cases r src dst c with h1 | ⟨h4, _, _, ⟨h6, h1⟩ | ⟨h2, h1⟩⟩ <;>
    rw [h1]
  · exact h
  · refine notin_movePieceReg r x _ _ h ?_
    intro d _ hc
    have : x.position.file = (5 : Int) := by rw [← hc]
    rw [hx, h6] at this
    exact absurd this (by decide)
  · refine notin_movePieceReg r x _ _ h ?_
    intro d _ hc
    have : x.position.file = (3 : Int) := by rw [← hc]
    rw [hx, h2] at this
    exact absurd this (by decide)

/-- A piece absent from the registry stays absent through the en-passant
handler. -/
theorem notin_handleEnPassantReg (r : Registry) (x : PieceData)
    (src dst : Position) (result : MoveResult) (c : Option PieceColor)
    (hasBM : Bool) (h : ∀ k, r k ≠ some x) :
    ∀ k, (handleEnPassantReg r src dst result c hasBM).1 k ≠ some x := by
  rcases handleEnPassantReg_cases r src dst result c hasBM with
    h1 | ⟨cc, cp, _, _, _, _, _, _, _, h1⟩ <;> rw [h1]
  · exact h
  · exact notin_removePieceReg r x _ h

/-- On a result with none of the check, checkmate and stalemate flags,
the event tail is exactly the move event followed by the turn event. -/
theorem eventsOf_tailEvents_normal (s7 : GState) (ap : Option PieceData)
    (result : MoveResult) (hnc : result.isCheck = false)
    (hncm : result.isCheckmate = false) (hnsm : result.isStalemate = false) :
    eventsOf (tailEvents s7 ap result) =
      [{ type := .move, data := some result, player := ap.map (·.color) },
        { type := .turn, player := some s7.engine.turn }] := by
  unfold tailEvents
  rw [hnc, hncm, hnsm]
  by_cases hai : (s7.config.mode = .ai ∧ s7.hasAI = true
      ∧ s7.engine.turn ≠ s7.config.playerColor.getD .w)
  · rw [if_pos hai]
    simp [eventsOf]
  · rw [if_neg hai]
    simp [eventsOf]

/-- Claim C4: for a simple capture — an attacker of the active faction
moving onto a destination held by an enemy piece, with a battle manager
attached and a result carrying none of the promotion, check, checkmate or
stalemate flags — the pipeline emits exactly the event sequence deselect,
capture (attributed to the attacker faction), move, turn, so the single
capture event precedes the move-committed event; afterwards the
destination holds the attacker piece, the captured piece is gone from the
whole registry, the in-flight flag is false, and the active faction has
flipped to the opponent. -/
theorem simple_capture_scenario (s : GState) (src dst sel : Position)
    (promoOv : Option PieceType) (result : MoveResult) (d e : PieceData)
    (h0 : s.isProcessingMove = false)
    (hbm : s.hasBattleManager = true)
    (hsel : s.selectedPosition = some sel)
    (hd : s.registry src = some d)
    (he : s.registry dst = some e)
    (henemy : e.color ≠ d.color)
    (hwf : RegWF s.registry)
    (hres : s.engine.respond src dst (computedPromotion s.registry src dst promoOv)
      = some result)
    (hnp : result.promotion = none)
    (hnc : result.isCheck = false)
    (hncm : result.isCheckmate = false)
    (hnsm : result.isStalemate = false) :
    eventsOf (executeMove s src dst promoOv).2 =
      [{ type := .deselect, pos := some sel },
        { type := .capture, data := some result, player := some d.color },
        { type := .move, data := some result, player := some d.color },
        { type := .turn, player := some s.engine.turn.flip }] ∧
    (executeMove s src dst promoOv).1.registry dst = some ⟨d.type, d.color, dst⟩ ∧
    (∀ k, (executeMove s src dst promoOv).1.registry k ≠ some e) ∧
    (executeMove s src dst promoOv).1.isProcessingMove = false ∧
    (executeMove s src dst promoOv).1.engine.turn = s.engine.turn.flip := by
  have hsd : src ≠ dst := by
    intro hc
    rw [hc, he] at hd
    exact henemy (congrArg PieceData.color (Option.some.inj hd))
  have hrm : ∀ k, removePieceReg s.registry dst k ≠ some e := by
    intro k
    unfold removePieceReg
    split
    · simp
    next hne =>
      intro hc
      exact hne ((hwf k e hc).symm.trans (hwf dst e he))
  rw [executeMove_accepted s src dst promoOv result h0 hres]
  simp only [hsel, hd, he, hbm, captureStep, promoStep, hnp, eventsOf_append]
  refine ⟨?_, ?_, ?_, ?_, ?_⟩
  · rw [eventsOf_handleCastlingReg, eventsOf_handleEnPassantReg,
      eventsOf_tailEvents_normal _ _ _ hnc hncm hnsm]
    simp [eventsOf, deselEvents]
  · rw [movePieceReg_apply_dst _ src dst d]
    rw [handleEnPassantReg_apply_src, handleCastlingReg_apply_src,
      removePieceReg_apply_ne _ _ _ hsd, hd]
  · intro k
    refine notin_movePieceReg _ e src dst ?_ ?_ k
    · exact notin_handleEnPassantReg _ e src dst result _ _
        (notin_handleCastlingReg _ e src dst _ (hwf dst e he) hrm)
    · intro d2 hd2 hc
      rw [handleEnPassantReg_apply_src, handleCastlingReg_apply_src,
        removePieceReg_apply_ne _ _ _ hsd, hd] at hd2
      cases Option.some.inj hd2
      exact henemy (congrArg PieceData.color hc).symm
  · trivial
  · trivial

/-! ## Claim C9: en-passant computed square -/

/-- Whether an effect is a visual board action (battle, removal,
relocation or creation) rather than an emitted event or AI scheduling. -/
def isAction : Effect → Bool
  | .battle _ _ _ _ => true
  | .removeP _ => true
  | .relocate _ _ => true
  | .addP _ _ _ => true
  | .event _ => false
  | .aiMoveScheduled => false

/-- The visual board actions of a trace, in order. -/
def actionsOf (tr : List Effect) : List Effect := tr.filter isAction

theorem actionsOf_deselEvents (o : Option Position) :
    actionsOf (deselEvents o) = [] := by
  cases o <;> rfl

theorem actionsOf_tailEvents (s7 : GState) (ap : Option PieceData)
    (result : MoveResult) : actionsOf (tailEvents s7 ap result) = [] := by
  unfold tailEvents actionsOf
  simp only [List.filter_append, apply_ite (List.filter isAction)]
  simp [isAction]

/-- The castling handler is a no-op whenever the file distance of the
move is not two. -/
theorem handleCastlingReg_noop_of_filediff (r : Registry) (src dst : Position)
    (c : Option PieceColor) (hne : (dst.file - src.file).natAbs ≠ 2) :
    handleCastlingReg r src dst c = (r, []) := by
  rcases handleCastlingReg_cases r src dst c with h | ⟨_, _, habs, _⟩
  · exact h
  · exact absurd habs hne

/-- The capture block keeps the battle-manager flag of its input. -/
theorem captureStep_hasBM (s2 : GState) (src dst : Position)
    (cp ap : Option PieceData) (result : MoveResult) :
    (captureStep s2 src dst cp ap result).1.hasBattleManager
      = s2.hasBattleManager := by
  unfold captureStep
  split
  · rfl
  · split <;> rfl

/-- The capture block leaves the registry unchanged away from the move
destination. -/
theorem captureStep_registry_apply (s2 : GState) (src dst : Position)
    (cp ap : Option PieceData) (result : MoveResult) (k : Position)
    (hk : k ≠ dst) :
    (captureStep s2 src dst cp ap result).1.registry k = s2.registry k := by
  unfold captureStep
  split
  · exact removePieceReg_apply_ne _ _ _ hk
  · split <;> rfl

/-- The en-passant handler in its active case: a pawn-takes-pawn result,
a one-square diagonal move, a pawn at the computed square and a battle
manager attached yield exactly the battle against the computed square
followed by the removal there. -/
theorem handleEnPassantReg_active (R : Registry) (src dst : Position)
    (result : MoveResult) (cc : PieceColor) (cp : PieceData)
    (hp : result.piece = .p) (hcapt : result.captured = some .p)
    (hf : (dst.file - src.file).natAbs = 1)
    (hr : (dst.rank - src.rank).natAbs = 1)
    (hcp : R ⟨dst.file, src.rank⟩ = some cp) (hty : cp.type = .p) :
    handleEnPassantReg R src dst result (some cc) true =
      (removePieceReg R ⟨dst.file, src.rank⟩,
        [Effect.battle src ⟨dst.file, src.rank⟩ .p cc,
          Effect.removeP ⟨dst.file, src.rank⟩]) := by
  simp only [handleEnPassantReg]
  rw [if_pos ⟨hp, hcapt⟩, if_pos ⟨hf, hr⟩]
  simp only [hcp]
  rw [if_pos hty]
  rfl

/-- Claim C9: the en-passant handler computes the captured pawn square
geometrically as `(destination.file, source.rank)`; for a true en-passant
shape (pawn captures pawn one square diagonally, empty destination, a
pawn present at the computed square), the battle-then-remove sequence is
run against that computed square — which differs from the destination —
and completes before the primary piece relocates: the visual actions of
the whole pipeline are exactly battle at the computed square, removal
there, then the primary relocation. -/
theorem en_passant_computed_square (s : GState) (src dst : Position)
    (promoOv : Option PieceType) (result : MoveResult) (d cp : PieceData)
    (h0 : s.isProcessingMove = false)
    (hbm : s.hasBattleManager = true)
    (hd : s.registry src = some d)
    (hdst : s.registry dst = none)
    (hres : s.engine.respond src dst (computedPromotion s.registry src dst promoOv)
      = some result)
    (hp : result.piece = .p)
    (hcapt : result.captured = some .p)
    (hf : (dst.file - src.file).natAbs = 1)
    (hr : (dst.rank - src.rank).natAbs = 1)
    (hcp : s.registry ⟨dst.file, src.rank⟩ = some cp)
    (hty : cp.type = .p)
    (hnp : result.promotion = none) :
    (⟨dst.file, src.rank⟩ : Position) ≠ dst ∧
    actionsOf (executeMove s src dst promoOv).2 =
      [Effect.battle src ⟨dst.file, src.rank⟩ .p d.color,
        Effect.removeP ⟨dst.file, src.rank⟩,
        Effect.relocate src dst] := by
  have hcposne : (⟨dst.file, src.rank⟩ : Position) ≠ dst := by
    apply position_ne_of_rank_ne
    intro heq
    simp only at heq
    rw [heq] at hr
    simp at hr
  refine ⟨hcposne, ?_⟩
  rw [executeMove_accepted s src dst promoOv result h0 hres]
  simp only [hd, hdst, Option.map_some']
  rw [handleCastlingReg_noop_of_filediff _ _ _ _ (by rw [hf]; decide)]
  simp only [captureStep]
  rw [if_pos ⟨by rw [hcapt]; rfl, trivial⟩]
  rw [hbm]
  rw [handleEnPassantReg_active s.registry src dst result d.color cp
    hp hcapt hf hr hcp hty]
  simp only [promoStep, hnp]
  simp only [actionsOf, List.filter_append, actionsOf_tailEvents,
    actionsOf_deselEvents]
  rw [show List.filter isAction (tailEvents _ (some d) result)
    = actionsOf (tailEvents _ (some d) result) from rfl, actionsOf_tailEvents]
  rw [show ∀ o, List.filter isAction (deselEvents o) = actionsOf (deselEvents o)
    from fun _ => rfl, actionsOf_deselEvents]
  rfl

/-- The move result of the concrete C9 scenario: pawn takes pawn en
passant. -/
def resultC9 : MoveResult :=
  { piece := .p, captured := some .p, promotion := none, isCheck := false,
    isCheckmate := false, isStalemate := false }

/-- Concrete registry for the C9 scenario: a white pawn on e5, a black
pawn on d5 (having just advanced two squares), d6 empty. -/
def regC9 : Registry := fun q =>
  if q = ⟨4, 4⟩ then some ⟨.p, .w, ⟨4, 4⟩⟩
  else if q = ⟨3, 4⟩ then some ⟨.p, .b, ⟨3, 4⟩⟩
  else none

/-- Concrete C9 state: e5 selected, d6 a recorded legal destination. -/
def stateC9 : GState :=
  { engine :=
      { turn := .w, movesFor := fun _ => [], respond := fun _ _ _ => some resultC9 },
    registry := regC9, hasBattleManager := true, hasAI := false,
    isProcessingMove := false, aiThinking := false,
    selectedPosition := some ⟨4, 4⟩, validMoves := [⟨3, 5⟩],
    config := { mode := .local, playerColor := none } }

theorem en_passant_computed_square_witness :
    ((⟨3, 4⟩ : Position) ≠ ⟨3, 5⟩) ∧
    actionsOf (executeMove stateC9 ⟨4, 4⟩ ⟨3, 5⟩ none).2 =
      [Effect.battle ⟨4, 4⟩ ⟨3, 4⟩ .p PieceColor.w,
        Effect.removeP ⟨3, 4⟩,
        Effect.relocate ⟨4, 4⟩ ⟨3, 5⟩] :=
  en_passant_computed_square stateC9 ⟨4, 4⟩ ⟨3, 5⟩ none resultC9
    ⟨.p, .w, ⟨4, 4⟩⟩ ⟨.p, .b, ⟨3, 4⟩⟩ rfl rfl rfl rfl rfl rfl rfl
    (by decide) (by decide) rfl rfl rfl

/-! ## Claim C5: ordering of visual consequences

Every effect kind that the spec orders is assigned a phase number:
capture battles 0, the secondary (castling rook) relocation 1, the
primary relocation 2, the promotion creation 3, the terminal-condition
event 4, the turn-change event 5.  Effects the spec does not order
(removals, the move and check and selection events, AI scheduling) have
no phase.  The ordering claim is that the phase sequence of every
pipeline trace is sorted. -/

/-- The phase of an effect in the spec ordering, relative to the primary
move from `src` to `dst`. -/
def phaseOf (src dst : Position) : Effect → Option Nat :=
  fun e =>
    match e with
    | .battle _ _ _ _ => some 0
    | .relocate a b => if a = src ∧ b = dst then some 2 else some 1
    | .addP _ _ _ => some 3
    | .event g =>
        match g.type with
        | .checkmate => some 4
        | .stalemate => some 4
        | .turn => some 5
        | _ => none
    | _ => none

/-- The phase sequence of a trace. -/
def phases (src dst : Position) (tr : List Effect) : List Nat :=
  tr.filterMap (phaseOf src dst)

theorem phases_append (src dst : Position) (a b : List Effect) :
    phases src dst (a ++ b) = phases src dst a ++ phases src dst b :=
  List.filterMap_append a b _

theorem phases_deselEvents (src dst : Position) (o : Option Position) :
    phases src dst (deselEvents o) = [] := by
  cases o <;> rfl

theorem phases_captureStep (src dst : Position) (s2 : GState) (a b : Position)
    (cp ap : Option PieceData) (result : MoveResult) :
    phases src dst (captureStep s2 a b cp ap result).2 = [0] ∨
    phases src dst (captureStep s2 a b cp ap result).2 = [] := by
  unfold captureStep
  split
  · left; rfl
  · split
    · right; rfl
    · right; rfl

theorem phases_handleCastlingReg (src dst : Position) (r : Registry)
    (c : Option PieceColor) :
    phases src dst (handleCastlingReg r src dst c).2 = [] ∨
    ((dst.file - src.file).natAbs = 2 ∧
      phases src dst (handleCastlingReg r src dst c).2 = [1]) := by
  rcases handleCastlingReg_cases r src dst c with
    h | ⟨h4, _, habs, ⟨h6, h⟩ | ⟨h2, h⟩⟩ <;> rw [h]
  · left; rfl
  · right
    refine ⟨habs, ?_⟩
    have hne : ¬((⟨7, src.rank⟩ : Position) = src ∧ (⟨5, src.rank⟩ : Position) = dst) := by
      rintro ⟨h7, -⟩
      exact absurd (congrArg Position.file h7) (by simp [h4])
    simp [phases, phaseOf, hne]
  · right
    refine ⟨habs, ?_⟩
    have hne : ¬((⟨0, src.rank⟩ : Position) = src ∧ (⟨3, src.rank⟩ : Position) = dst) := by
      rintro ⟨h7, -⟩
      exact absurd (congrArg Position.file h7) (by simp [h4])
    simp [phases, phaseOf, hne]

theorem phases_handleEnPassantReg (src dst : Position) (r : Registry)
    (result : MoveResult) (c : Option PieceColor) (hasBM : Bool) :
    phases src dst (handleEnPassantReg r src dst result c hasBM).2 = [] ∨
    ((dst.file - src.file).natAbs = 1 ∧
      phases src dst (handleEnPassantReg r src dst result c hasBM).2 = [0]) := by
  rcases handleEnPassantReg_cases r src dst result c hasBM with
    h | ⟨cc, cp, _, _, _, hf, _, _, _, h⟩ <;> rw [h]
  · left; rfl
  · cases hasBM
    · left; rfl
    · right; exact ⟨hf, rfl⟩

theorem phases_primary (src dst : Position) :
    phases src dst [Effect.relocate src dst] = [2] := by
  simp [phases, phaseOf]

theorem phases_promoStep (src dst : Position) (s6 : GState) (b : Position)
    (ap : Option PieceData) (result : MoveResult) :
    phases src dst (promoStep s6 b ap result).2 = [3] ∨
    phases src dst (promoStep s6 b ap result).2 = [] := by
  unfold promoStep
  split
  · left; rfl
  · right; rfl

theorem phases_tailEvents (src dst : Position) (s7 : GState)
    (ap : Option PieceData) (result : MoveResult) :
    phases src dst (tailEvents s7 ap result) = [4] ∨
    phases src dst (tailEvents s7 ap result) = [5] := by
  unfold tailEvents
  simp only [phases, List.filterMap_append,
    apply_ite (List.filterMap (phaseOf src dst))]
  cases hcm : result.isCheckmate
  · cases hsm : result.isStalemate
    · right
      simp [phaseOf, apply_ite (List.filterMap (phaseOf src dst))]
    · left
      simp [phaseOf]
  · left
    simp [phaseOf]

/-- Sortedness of the phase concatenation, abstracted over the segment
shapes: the only inversion candidate — a castling rook relocation (phase
1) followed by an en-passant battle (phase 0) — is impossible because the
two geometries need file distances 2 and 1 at once. -/
theorem sorted_phases_concat (C2 C1 : Prop) (P1 P2 P3 P4 P5 P6 P7 : List Nat)
    (h1 : P1 = []) (h2 : P2 = [0] ∨ P2 = [])
    (h3 : P3 = [] ∨ (C2 ∧ P3 = [1]))
    (h4 : P4 = [] ∨ (C1 ∧ P4 = [0]))
    (hC : ¬(C2 ∧ C1)) (h5 : P5 = [2])
    (h6 : P6 = [3] ∨ P6 = []) (h7 : P7 = [4] ∨ P7 = [5]) :
    List.Sorted (· ≤ ·) (P1 ++ P2 ++ P3 ++ P4 ++ P5 ++ P6 ++ P7) := by
  subst h1 h5
  rcases h2 with h2 | h2 <;> rcases h3 with h3 | ⟨hc2, h3⟩ <;>
    rcases h4 with h4 | ⟨hc1, h4⟩ <;> rcases h6 with h6 | h6 <;>
    rcases h7 with h7 | h7 <;> subst h2 h3 h4 h6 h7 <;>
    first
      | decide
      | exact absurd ⟨hc2, hc1⟩ hC

/-- Whether an effect is a piece relocation. -/
def isRelocate : Effect → Bool
  | .relocate _ _ => true
  | _ => false

theorem relocs_deselEvents (o : Option Position) :
    (deselEvents o).filter isRelocate = [] := by
  cases o <;> rfl

theorem relocs_captureStep (s2 : GState) (a b : Position)
    (cp ap : Option PieceData) (result : MoveResult) :
    ((captureStep s2 a b cp ap result).2).filter isRelocate = [] := by
  unfold captureStep
  split
  · rfl
  · split <;> rfl

theorem relocs_promoStep (s6 : GState) (b : Position) (ap : Option PieceData)
    (result : MoveResult) :
    ((promoStep s6 b ap result).2).filter isRelocate = [] := by
  unfold promoStep
  split <;> rfl

theorem relocs_tailEvents (s7 : GState) (ap : Option PieceData)
    (result : MoveResult) :
    (tailEvents s7 ap result).filter isRelocate = [] := by
  unfold tailEvents
  simp only [List.filter_append, apply_ite (List.filter isRelocate)]
  simp [isRelocate]

/-- The en-passant handler is a no-op whenever the file distance of the
move is not one. -/
theorem handleEnPassantReg_noop_of_filediff (r : Registry) (src dst : Position)
    (result : MoveResult) (c : Option PieceColor) (hasBM : Bool)
    (hne : (dst.file - src.file).natAbs ≠ 1) :
    handleEnPassantReg r src dst result c hasBM = (r, []) := by
  rcases handleEnPassantReg_cases r src dst result c hasBM with
    h | ⟨cc, cp, _, _, _, hf, _, _, _, h⟩
  · exact h
  · exact absurd hf hne

/-- The castling handler on the king-side geometry. -/
theorem handleCastlingReg_kside (r : Registry) (src dst : Position)
    (cc : PieceColor) (h4 : src.file = 4) (hrk : src.rank = 0 ∨ src.rank = 7)
    (habs : (dst.file - src.file).natAbs = 2) (h6 : dst.file = 6) :
    handleCastlingReg r src dst (some cc) =
      (movePieceReg r ⟨7, src.rank⟩ ⟨5, src.rank⟩,
        [Effect.relocate ⟨7, src.rank⟩ ⟨5, src.rank⟩]) := by
  simp only [handleCastlingReg]
  rw [if_pos ⟨h4, hrk, habs⟩, if_pos h6]

/-- The castling handler on the queen-side geometry. -/
theorem handleCastlingReg_qside (r : Registry) (src dst : Position)
    (cc : PieceColor) (h4 : src.file = 4) (hrk : src.rank = 0 ∨ src.rank = 7)
    (habs : (dst.file - src.file).natAbs = 2) (h2 : dst.file = 2) :
    handleCastlingReg r src dst (some cc) =
      (movePieceReg r ⟨0, src.rank⟩ ⟨3, src.rank⟩,
        [Effect.relocate ⟨0, src.rank⟩ ⟨3, src.rank⟩]) := by
  simp only [handleCastlingReg]
  rw [if_pos ⟨h4, hrk, habs⟩, if_neg (by rw [h2]; decide), if_pos h2]

/-- Claim C5: the visual consequences of every accepted move are observed
in the fixed order capture battle(s), secondary (castling rook)
relocation, primary relocation, promotion swap, terminal-condition event,
turn-change event — the phase sequence of every pipeline trace is sorted;
and for every castling-shaped move the rook is relocated exactly once,
before the primary piece tween: the relocations of the trace are exactly
the rook relocation followed by the primary one. -/
theorem visual_consequence_order (s : GState) (src dst : Position)
    (promoOv : Option PieceType) (result : MoveResult) (d : PieceData)
    (h0 : s.isProcessingMove = false)
    (hd : s.registry src = some d)
    (hres : s.engine.respond src dst (computedPromotion s.registry src dst promoOv)
      = some result) :
    List.Sorted (· ≤ ·) (phases src dst (executeMove s src dst promoOv).2) ∧
    ((src.file = 4 ∧ (src.rank = 0 ∨ src.rank = 7)
        ∧ (dst.file - src.file).natAbs = 2 ∧ dst.file = 6) →
      (executeMove s src dst promoOv).2.filter isRelocate =
        [Effect.relocate ⟨7, src.rank⟩ ⟨5, src.rank⟩, Effect.relocate src dst]) ∧
    ((src.file = 4 ∧ (src.rank = 0 ∨ src.rank = 7)
        ∧ (dst.file - src.file).natAbs = 2 ∧ dst.file = 2) →
      (executeMove s src dst promoOv).2.filter isRelocate =
        [Effect.relocate ⟨0, src.rank⟩ ⟨3, src.rank⟩, Effect.relocate src dst]) := by
  rw [executeMove_accepted s src dst promoOv result h0 hres]
  refine ⟨?_, ?_, ?_⟩
  · simp only [phases_append]
    apply sorted_phases_concat ((dst.file - src.file).natAbs = 2)
      ((dst.file - src.file).natAbs = 1)
    · exact phases_deselEvents src dst _
    · exact phases_captureStep src dst _ _ _ _ _ _
    · exact phases_handleCastlingReg src dst _ _
    · exact phases_handleEnPassantReg src dst _ _ _ _
    · omega
    · exact phases_primary src dst
    · exact phases_promoStep src dst _ _ _ _
    · exact phases_tailEvents src dst _ _ _
  · intro hgeo
    simp only [hd, Option.map_some', List.filter_append]
    rw [handleCastlingReg_kside _ src dst d.color hgeo.1 hgeo.2.1
      hgeo.2.2.1 hgeo.2.2.2]
    rw [handleEnPassantReg_noop_of_filediff _ src dst _ _ _
      (by rw [hgeo.2.2.1]; decide)]
    rw [relocs_deselEvents, relocs_captureStep, relocs_promoStep,
      relocs_tailEvents]
    rfl
  · intro hgeo
    simp only [hd, Option.map_some', List.filter_append]
    rw [handleCastlingReg_qside _ src dst d.color hgeo.1 hgeo.2.1
      hgeo.2.2.1 hgeo.2.2.2]
    rw [handleEnPassantReg_noop_of_filediff _ src dst _ _ _
      (by rw [hgeo.2.2.1]; decide)]
    rw [relocs_deselEvents, relocs_captureStep, relocs_promoStep,
      relocs_tailEvents]
    rfl

/-- The move result of the concrete C5 scenario: white castles short. -/
def resultC5 : MoveResult :=
  { piece := .k, captured := none, promotion := none, isCheck := false,
    isCheckmate := false, isStalemate := false }

/-- Concrete registry for the C5 scenario: the white king on e1, a white
rook on h1. -/
def regC5 : Registry := fun q =>
  if q = ⟨4, 0⟩ then some ⟨.k, .w, ⟨4, 0⟩⟩
  else if q = ⟨7, 0⟩ then some ⟨.r, .w, ⟨7, 0⟩⟩
  else none

/-- Concrete C5 state: e1 selected, g1 a recorded legal destination. -/
def stateC5 : GState :=
  { engine :=
      { turn := .w, movesFor := fun _ => [], respond := fun _ _ _ => some resultC5 },
    registry := regC5, hasBattleManager := true, hasAI := false,
    isProcessingMove := false, aiThinking := false,
    selectedPosition := some ⟨4, 0⟩, validMoves := [⟨6, 0⟩],
    config := { mode := .local, playerColor := none } }

theorem visual_consequence_order_witness :
    List.Sorted (· ≤ ·)
      (phases ⟨4, 0⟩ ⟨6, 0⟩ (executeMove stateC5 ⟨4, 0⟩ ⟨6, 0⟩ none).2) ∧
    (executeMove stateC5 ⟨4, 0⟩ ⟨6, 0⟩ none).2.filter isRelocate =
      [Effect.relocate ⟨7, 0⟩ ⟨5, 0⟩, Effect.relocate ⟨4, 0⟩ ⟨6, 0⟩] := by
  have h := visual_consequence_order stateC5 ⟨4, 0⟩ ⟨6, 0⟩ none resultC5
    ⟨.k, .w, ⟨4, 0⟩⟩ rfl rfl rfl
  exact ⟨h.1, h.2.1 ⟨rfl, Or.inl rfl, by decide, rfl⟩⟩

/-- The move result of the concrete C4 scenario: pawn takes pawn. -/
def resultC4 : MoveResult :=
  { piece := .p, captured := some .p, promotion := none, isCheck := false,
    isCheckmate := false, isStalemate := false }

/-- Concrete engine for the C4 scenario: white to move, the submission
accepted as a pawn-takes-pawn capture. -/
def engineC4 : Engine :=
  { turn := .w, movesFor := fun _ => [], respond := fun _ _ _ => some resultC4 }

/-- Concrete registry for the C4 scenario: a white pawn on e4, a black
pawn on d5. -/
def regC4 : Registry := fun q =>
  if q = ⟨4, 3⟩ then some ⟨.p, .w, ⟨4, 3⟩⟩
  else if q = ⟨3, 4⟩ then some ⟨.p, .b, ⟨3, 4⟩⟩
  else none

/-- Concrete C4 state: e4 selected, d5 a recorded legal destination. -/
def stateC4 : GState :=
  { engine := engineC4, registry := regC4, hasBattleManager := true,
    hasAI := false, isProcessingMove := false, aiThinking := false,
    selectedPosition := some ⟨4, 3⟩, validMoves := [⟨3, 4⟩],
    config := { mode := .local, playerColor := none } }

theorem regC4_wf : RegWF stateC4.registry := by
  intro p d h
  simp only [stateC4, regC4] at h
  split at h
  next heq => cases h; exact heq.symm
  next =>
    split at h
    next heq2 => cases h; exact heq2.symm
    next => cases h

theorem simple_capture_witness :
    eventsOf (executeMove stateC4 ⟨4, 3⟩ ⟨3, 4⟩ none).2 =
      [{ type := .deselect, pos := some ⟨4, 3⟩ },
        { type := .capture, data := some resultC4, player := some PieceColor.w },
        { type := .move, data := some resultC4, player := some PieceColor.w },
        { type := .turn, player := some PieceColor.b }] ∧
    (executeMove stateC4 ⟨4, 3⟩ ⟨3, 4⟩ none).1.registry ⟨3, 4⟩
      = some ⟨.p, .w, ⟨3, 4⟩⟩ ∧
    (∀ k, (executeMove stateC4 ⟨4, 3⟩ ⟨3, 4⟩ none).1.registry k
      ≠ some ⟨.p, .b, ⟨3, 4⟩⟩) ∧
    (executeMove stateC4 ⟨4, 3⟩ ⟨3, 4⟩ none).1.isProcessingMove = false ∧
    (executeMove stateC4 ⟨4, 3⟩ ⟨3, 4⟩ none).1.engine.turn = PieceColor.b :=
  simple_capture_scenario stateC4 ⟨4, 3⟩ ⟨3, 4⟩ ⟨4, 3⟩ none resultC4
    ⟨.p, .w, ⟨4, 3⟩⟩ ⟨.p, .b, ⟨3, 4⟩⟩ rfl rfl rfl (by decide) (by decide)
    (by decide) regC4_wf rfl rfl rfl rfl rfl

theorem checkmate_single_gameover_witness :
    ((executeMove stateC6 ⟨0, 0⟩ ⟨0, 7⟩ none).2.filter (effectHasType .checkmate)) =
      [Effect.event
        { type := .checkmate
          data := some resultC6
          player := some PieceColor.w }] ∧
    ((executeMove stateC6 ⟨0, 0⟩ ⟨0, 7⟩ none).2.filter (effectHasType .turn)) = [] ∧
    (executeMove stateC6 ⟨0, 0⟩ ⟨0, 7⟩ none).1.isProcessingMove = false :=
  checkmate_single_gameover stateC6 ⟨0, 0⟩ ⟨0, 7⟩ none resultC6
    ⟨.q, .w, ⟨0, 0⟩⟩ rfl rfl rfl rfl

end BattleChess
